import Mathlib

/-!
Verification of the Wellz live system-stats dashboard core
(`wellz/core/history.py`, `wellz/ui/widgets/{graph,box}.py`,
`wellz/ui/layout.py`, `wellz/ui/panels/{cpu_panel,process_panel}.py`,
`wellz/process/manager.py`).

Python floats are modelled as rationals (`ℚ`); Python's arbitrary
precision ints as `ℤ`/`Nat`.  Wall-clock reads (`time.time()`) are made
explicit `now` parameters.  Stateful methods become explicit state
passing: a method that mutates its receiver (or, for the frame-effect
claim, its list arguments) is a Lean function returning the new state
alongside its Python return value.
-/

set_option maxRecDepth 4000

namespace Wellz

/-! ### Python list slicing helper

`l[-n:]` for a nonnegative `n`: for `n = 0` Python reads it as `l[0:]`,
i.e. the whole list; for `n ≥ 1` it is the last `min n l.length`
elements. -/

def pyLastSlice (l : List α) (n : Nat) : List α :=
  if n = 0 then l else l.drop (l.length - n)

/-! ### `HistoryBuffer` (`wellz/core/history.py` lines 10-62)

The two `deque(maxlen=maxlen)` fields are modelled as lists (oldest
first) together with the stored `maxlen`.  `collections.deque.append`
appends and then evicts from the left while the length exceeds
`maxlen`; with `maxlen = 0` the deque always stays empty.  `append`
also records `time.time()`, passed here as the explicit `now`. -/

def dequeAppend (maxlen : Nat) (l : List α) (v : α) : List α :=
  let l' := l ++ [v]
  l'.drop (l'.length - maxlen)

structure HistoryBuffer where
  maxlen : Nat
  buffer : List ℚ
  timestamps : List ℚ
  deriving DecidableEq, Repr

def HistoryBuffer.init (maxlen : Nat) : HistoryBuffer :=
  { maxlen := maxlen, buffer := [], timestamps := [] }

def HistoryBuffer.append (b : HistoryBuffer) (value : ℚ) (now : ℚ) : HistoryBuffer :=
  { b with
    buffer := dequeAppend b.maxlen b.buffer value
    timestamps := dequeAppend b.maxlen b.timestamps now }

def HistoryBuffer.get_data (b : HistoryBuffer) : List ℚ :=
  b.buffer

/-- Appending a whole sequence of `(value, timestamp)` pairs, one
`append` per element, left to right. -/
def HistoryBuffer.appendAll (b : HistoryBuffer) (vs : List (ℚ × ℚ)) : HistoryBuffer :=
  vs.foldl (fun b p => b.append p.1 p.2) b

/-! ### `NetworkSpeedBuffer` (`wellz/core/history.py` lines 65-96)

`update(total_bytes)` reads `time.time()` (the explicit `now` here),
computes `speed = (total_bytes - last_bytes) / (now - last_time)` when a
baseline exists and the elapsed time is positive (`0.0` otherwise),
stores the new baseline, appends the speed and returns it.  Note that
the source has no lower clamp on `speed`. -/

structure NetworkSpeedBuffer where
  base : HistoryBuffer
  last_bytes : Option ℤ
  last_time : Option ℚ
  deriving DecidableEq, Repr

def NetworkSpeedBuffer.init (maxlen : Nat) : NetworkSpeedBuffer :=
  { base := HistoryBuffer.init maxlen, last_bytes := none, last_time := none }

def NetworkSpeedBuffer.update (s : NetworkSpeedBuffer) (total_bytes : ℤ) (now : ℚ) :
    ℚ × NetworkSpeedBuffer :=
  let speed : ℚ :=
    match s.last_bytes, s.last_time with
    | some b, some t =>
        if 0 < now - t then ((total_bytes - b : ℤ) : ℚ) / (now - t) else 0
    | _, _ => 0
  (speed,
    { base := s.base.append speed now
      last_bytes := some total_bytes
      last_time := some now })

/-! ### `SystemHistory._fit_to_width` (`wellz/core/history.py` lines 236-244)

`if len(data) >= width: return data[-width:] else: return
[0.0]*(width-len(data)) + list(data)`. -/

def fit_to_width (data : List ℚ) (width : Nat) : List ℚ :=
  if width ≤ data.length then
    pyLastSlice data width
  else
    List.replicate (width - data.length) 0 ++ data

/-! ### Helper lemmas about `dequeAppend` -/

/-- The last `n` elements of a list (all of it when `n ≥ length`). -/
def lastN (n : Nat) (l : List α) : List α :=
  l.drop (l.length - n)

theorem lastN_idem_append (n : Nat) (l : List α) (v : α) :
    lastN n (lastN n l ++ [v]) = lastN n (l ++ [v]) := by
  rcases le_or_lt l.length n with h | h
  · have h0 : l.length - n = 0 := Nat.sub_eq_zero_of_le h
    simp [lastN, h0]
  · have hd : l.length - n ≤ l.length := Nat.sub_le _ _
    unfold lastN
    have hb : (l.drop (l.length - n)).length = n := by
      rw [List.length_drop]; omega
    have h1 : (l.drop (l.length - n) ++ [v]).length - n = 1 := by
      rw [List.length_append, hb]; simp
    have h2 : (l ++ [v]).length - n = (l.length - n) + 1 := by
      rw [List.length_append, List.length_singleton]; omega
    rw [h1, h2, ← List.drop_drop, List.drop_append_of_le_length hd]

theorem lastN_append_singleton (n : Nat) (l : List α) (v : α) :
    dequeAppend n (lastN n l) v = lastN n (l ++ [v]) := by
  show lastN n (lastN n l ++ [v]) = lastN n (l ++ [v])
  exact lastN_idem_append n l v

theorem appendAll_eq (N : Nat) (vs : List (ℚ × ℚ)) :
    ∀ acc accT : List ℚ,
      HistoryBuffer.appendAll ⟨N, lastN N acc, lastN N accT⟩ vs =
        ⟨N, lastN N (acc ++ vs.map Prod.fst), lastN N (accT ++ vs.map Prod.snd)⟩ := by
  induction vs with
  | nil => intro acc accT; simp [HistoryBuffer.appendAll]
  | cons p t ih =>
      intro acc accT
      have step : HistoryBuffer.append ⟨N, lastN N acc, lastN N accT⟩ p.1 p.2 =
          ⟨N, lastN N (acc ++ [p.1]), lastN N (accT ++ [p.2])⟩ := by
        simp [HistoryBuffer.append, lastN_append_singleton]
      simp only [HistoryBuffer.appendAll, List.foldl_cons]
      rw [show (⟨N, lastN N acc, lastN N accT⟩ : HistoryBuffer).append p.1 p.2 =
          ⟨N, lastN N (acc ++ [p.1]), lastN N (accT ++ [p.2])⟩ from step]
      have := ih (acc ++ [p.1]) (accT ++ [p.2])
      simpa [HistoryBuffer.appendAll, List.append_assoc] using this

theorem appendAll_init (N : Nat) (vs : List (ℚ × ℚ)) :
    (HistoryBuffer.init N).appendAll vs =
      ⟨N, lastN N (vs.map Prod.fst), lastN N (vs.map Prod.snd)⟩ := by
  have h0 : (HistoryBuffer.init N) = ⟨N, lastN N [], lastN N []⟩ := by
    simp [HistoryBuffer.init, lastN]
  rw [h0, appendAll_eq]
  simp

/-! ## Claims about the history buffers -/

/-- C3: a `HistoryBuffer` of capacity `N ≥ 1`, after `M > N` appends,
holds exactly the last `N` appended values in append order (FIFO
eviction), and after any sequence of appends its length never exceeds
`N`. -/
theorem historyBuffer_fifo (N : Nat) (vs : List (ℚ × ℚ))
    (hN : 1 ≤ N) (hM : N < vs.length) :
    ((HistoryBuffer.init N).appendAll vs).get_data.length = N ∧
    ((HistoryBuffer.init N).appendAll vs).get_data =
      (vs.map Prod.fst).drop (vs.length - N) ∧
    ∀ ws : List (ℚ × ℚ),
      ((HistoryBuffer.init N).appendAll ws).get_data.length ≤ N := by
  refine ⟨?_, ?_, ?_⟩
  · rw [appendAll_init]
    simp [HistoryBuffer.get_data, lastN]
    omega
  · rw [appendAll_init]
    simp [HistoryBuffer.get_data, lastN]
  · intro ws
    rw [appendAll_init]
    simp [HistoryBuffer.get_data, lastN]
    omega

/-- Witness for C3: capacity 2, three appends retain the last two values. -/
theorem historyBuffer_fifo_witness :
    ((HistoryBuffer.init 2).appendAll [(1, 0), (2, 1), (3, 2)]).get_data.length = 2 ∧
    ((HistoryBuffer.init 2).appendAll [(1, 0), (2, 1), (3, 2)]).get_data = [2, 3] := by
  have h := historyBuffer_fifo 2 [(1, 0), (2, 1), (3, 2)] (by decide) (by decide)
  refine ⟨h.1, ?_⟩
  rw [h.2.1]
  decide

/-- C1 (code bug): on a counter reset the source returns the negative
rate `(new_total - last_total) / elapsed` and appends it to the history,
instead of the rate `0` the spec requires; the first call after
construction does return `0` and only seeds the baseline.  Evaluated at
totals `1500` then `200` one second apart. -/
theorem networkSpeedBuffer_reset_negative :
    ((NetworkSpeedBuffer.init 120).update 1500 0).1 = 0 ∧
    ((((NetworkSpeedBuffer.init 120).update 1500 0).2).update 200 1).1 = -1300 ∧
    ((((NetworkSpeedBuffer.init 120).update 1500 0).2).update 200 1).2.base.buffer
      = [0, -1300] ∧
    ((((NetworkSpeedBuffer.init 120).update 1500 0).2).update 200 1).1 < 0 := by
  refine ⟨?_, ?_, ?_, ?_⟩ <;>
    norm_num [NetworkSpeedBuffer.init, NetworkSpeedBuffer.update,
      HistoryBuffer.init, HistoryBuffer.append, dequeAppend]

/-- C9 (code bug): the constructor performs no validation of the
requested capacity; `HistoryBuffer(0)` wraps `deque(maxlen=0)`, which
retains no appended sample at all — the capacity is neither rejected
nor clamped to 1. -/
theorem historyBuffer_zero_capacity :
    (HistoryBuffer.init 0).maxlen = 0 ∧
    ((HistoryBuffer.init 0).append 5 0).get_data = [] ∧
    ((HistoryBuffer.init 0).append 5 0).get_data.length = 0 := by
  refine ⟨rfl, ?_, ?_⟩ <;> decide

/-- C2 counterexample: at target width `0` with a nonempty sample list,
`_fit_to_width` returns the whole list (`data[-0:]` is `data[0:]` in
Python), so the output length is not the target width. -/
theorem fit_to_width_zero_counterexample :
    fit_to_width [1] 0 = [1] ∧ (fit_to_width [1] 0).length ≠ 0 := by
  refine ⟨?_, ?_⟩ <;> decide

/-- C2 (amended to widths `W ≥ 1`): `_fit_to_width data W` has length
exactly `W`; it is the last `W` samples when `W ≤ length`, and zero
left-padding followed by all of `data` otherwise. -/
theorem fit_to_width_spec (data : List ℚ) (W : Nat) (hW : 1 ≤ W) :
    (fit_to_width data W).length = W ∧
    (W ≤ data.length → fit_to_width data W = data.drop (data.length - W)) ∧
    (data.length < W →
      fit_to_width data W = List.replicate (W - data.length) 0 ++ data) := by
  have hW0 : W ≠ 0 := by omega
  refine ⟨?_, ?_, ?_⟩
  · unfold fit_to_width pyLastSlice
    rcases le_or_lt W data.length with h | h
    · simp [h, hW0]
      omega
    · simp [Nat.not_le.mpr h, not_le.mpr h]
      omega
  · intro h
    simp [fit_to_width, pyLastSlice, h, hW0]
  · intro h
    simp [fit_to_width, Nat.not_le.mpr h]

/-- Witness for C2's amended theorem at `data = [1,2,3]`, `W = 2`. -/
theorem fit_to_width_spec_witness :
    (fit_to_width [1, 2, 3] 2).length = 2 ∧
    fit_to_width [1, 2, 3] 2 = [2, 3] := by
  have h := fit_to_width_spec [1, 2, 3] 2 (by decide)
  refine ⟨h.1, ?_⟩
  rw [h.2.1 (by decide)]
  decide

/-! ### ANSI-aware strings

The renderer builds Python strings mixing visible characters with ANSI
escape sequences, and measures them with
`re.sub(r..., '', text)` before padding.  A string is modelled as a
list of tokens, each either one visible character or one whole escape
sequence (the escapes used by the program — `\x1b[90m`, `\x1b[0m`, … —
all match the source's regex exactly, and no visible character of the
program is part of an escape).  The regex-stripped length is then the
number of `ch` tokens. -/

inductive Tok where
  | ch (c : Char)
  | esc (s : String)
  deriving DecidableEq, Repr

def Tok.isVisible : Tok → Bool
  | .ch _ => true
  | .esc _ => false

/-- A rendered line. -/
abbrev Line := List Tok

/-- `len(ansi_escape.sub('', text))`: the visible length of a line. -/
def visibleLen (l : Line) : Nat :=
  l.countP Tok.isVisible

theorem visibleLen_append (a b : Line) :
    visibleLen (a ++ b) = visibleLen a + visibleLen b :=
  List.countP_append _ _ _

theorem visibleLen_replicate_ch (n : Nat) (c : Char) :
    visibleLen (List.replicate n (Tok.ch c)) = n := by
  induction n with
  | zero => rfl
  | succ k ih =>
      simp only [List.replicate, visibleLen, List.countP_cons] at *
      simp [ih, Tok.isVisible]

/-- `"\x1b[0m"`, appended by the source after every colored span. -/
def RESET : String := "\x1b[0m"

/-! ### `create_box_line` (`wellz/ui/widgets/box.py` lines 173-187)

Left border + one space + content + `padding` spaces + right border,
where `padding = (width - 2) - visible_len(content) - 1`, clamped at 0.
The arithmetic is over Python ints, so it is carried out in `ℤ` before
clamping. -/

def create_box_line (content : Line) (width : Nat)
    (border_color : String) : Line :=
  let visible_len : ℤ := visibleLen content
  let inner_width : ℤ := (width : ℤ) - 2
  let pad : ℤ := inner_width - visible_len - 1
  let pad : Nat := if pad < 0 then 0 else pad.toNat
  [Tok.esc border_color, Tok.ch '│', Tok.esc RESET, Tok.ch ' ']
    ++ content ++ List.replicate pad (Tok.ch ' ')
    ++ [Tok.esc border_color, Tok.ch '│', Tok.esc RESET]

/-- C6: whenever the content's visible length is at most `width - 3`,
`create_box_line` pads from the ANSI-stripped visible length (never the
raw length) and the rendered line's visible length is exactly `width`. -/
theorem create_box_line_visible_width (content : Line) (width : Nat)
    (bc : String) (h : (visibleLen content : ℤ) ≤ (width : ℤ) - 3) :
    visibleLen (create_box_line content width bc) = width := by
  unfold create_box_line
  have hpad : ¬ ((width : ℤ) - 2 - (visibleLen content : ℤ) - 1 < 0) := by omega
  simp only [hpad, if_false]
  simp only [visibleLen_append, visibleLen_replicate_ch]
  have h4 : visibleLen [Tok.esc bc, Tok.ch '│', Tok.esc RESET, Tok.ch ' '] = 2 := by
    rfl
  have h3 : visibleLen [Tok.esc bc, Tok.ch '│', Tok.esc RESET] = 1 := by
    rfl
  rw [h4, h3]
  omega

/-- Witness for C6 at the spec's example: content `"\x1b[92mOK\x1b[0m"`
(visible length 2, raw length 11) in a box of width 10. -/
theorem create_box_line_visible_width_witness :
    visibleLen (create_box_line
      [Tok.esc "\x1b[92m", Tok.ch 'O', Tok.ch 'K', Tok.esc "\x1b[0m"]
      10 "\x1b[90m") = 10 := by
  exact create_box_line_visible_width
    [Tok.esc "\x1b[92m", Tok.ch 'O', Tok.ch 'K', Tok.esc "\x1b[0m"]
    10 "\x1b[90m" (by decide)

/-! ### Usage→color step functions
(`wellz/ui/panels/cpu_panel.py` lines 120-127,
`wellz/ui/panels/process_panel.py` lines 203-210)

Both sources return `self.theme.get("low"/"mid"/"high", default)`; a
theme is an opaque role→color mapping, so the functions are modelled by
the semantic role they select. -/

inductive UsageTier where
  | low | mid | high
  deriving DecidableEq, Repr

namespace CPUPanel

/-- `CPUPanel._get_usage_color`: `<50 → low`, `<80 → mid`, else high. -/
def get_usage_color (percent : ℚ) : UsageTier :=
  if percent < 50 then .low
  else if percent < 80 then .mid
  else .high

end CPUPanel

namespace ProcessPanel

/-- `ProcessPanel._get_usage_color`: `<25 → low`, `<50 → mid`, else high. -/
def get_usage_color (percent : ℚ) : UsageTier :=
  if percent < 25 then .low
  else if percent < 50 then .mid
  else .high

end ProcessPanel

/-- C4 counterexample: the process panel's mapping is not the 50/80
step function — at 49.9 it selects the mid color (its thresholds are
25/50), not the low color the claim requires of every panel. -/
theorem process_panel_color_counterexample :
    ProcessPanel.get_usage_color 49.9 = UsageTier.mid ∧
    ProcessPanel.get_usage_color 49.9 ≠ UsageTier.low ∧
    ProcessPanel.get_usage_color 80 = UsageTier.high := by
  have h1 : ProcessPanel.get_usage_color 49.9 = UsageTier.mid := by
    norm_num [ProcessPanel.get_usage_color]
  refine ⟨h1, ?_, ?_⟩
  · rw [h1]; decide
  · norm_num [ProcessPanel.get_usage_color]

/-- C4 (amended): the CPU panel uses the (50, 80) step function with
the claimed boundaries; the process panel diverges and uses (25, 50),
so only its own boundaries hold there. -/
theorem usage_color_tiers :
    (CPUPanel.get_usage_color 49.9 = UsageTier.low ∧
     CPUPanel.get_usage_color 50 = UsageTier.mid ∧
     CPUPanel.get_usage_color 79.9 = UsageTier.mid ∧
     CPUPanel.get_usage_color 80 = UsageTier.high) ∧
    (ProcessPanel.get_usage_color 24.9 = UsageTier.low ∧
     ProcessPanel.get_usage_color 25 = UsageTier.mid ∧
     ProcessPanel.get_usage_color 49.9 = UsageTier.mid ∧
     ProcessPanel.get_usage_color 50 = UsageTier.high) := by
  refine ⟨⟨?_, ?_, ?_, ?_⟩, ?_, ?_, ?_, ?_⟩ <;>
    norm_num [CPUPanel.get_usage_color, ProcessPanel.get_usage_color]

/-! ### `Layout.combine_rows` (`wellz/ui/layout.py` lines 75-120)

Python semantics captured here: the filtered list `rows` holds the very
list objects the caller passed, and `row.append(" " * visible_width)`
mutates them.  `combine_rows` is therefore modelled as returning both
the combined lines and the post-call state of every argument list
(empty argument lists are filtered out and stay untouched).
`gap_str.join(line_parts)` is `str.join`. -/

def joinWith (sep : Line) : List Line → Line
  | [] => []
  | [x] => x
  | x :: y :: t => x ++ sep ++ joinWith sep (y :: t)

/-- Blank padding line for one panel: spaces matching the visible width
of the panel's first line. -/
def blankOf (r : List Line) : Line :=
  List.replicate (visibleLen (r.headD [])) (Tok.ch ' ')

/-- `while len(row) < max_height: row.append(" " * visible_width)`. -/
def padTo (mh : Nat) (r : List Line) : List Line :=
  r ++ List.replicate (mh - r.length) (blankOf r)

/-- `max(len(r) for r in rows)` (0 for no rows). -/
def maxHeight (rows : List (List Line)) : Nat :=
  rows.foldl (fun a r => max a r.length) 0

def combine_rows (rows0 : List (List Line)) (gap : Nat) :
    List Line × List (List Line) :=
  let rows := rows0.filter (fun r => !r.isEmpty)
  if rows.isEmpty then ([], rows0)
  else
    let mh := maxHeight rows
    let gap_str : Line := List.replicate gap (Tok.ch ' ')
    let padded := rows.map (padTo mh)
    ((List.range mh).map fun i =>
        joinWith gap_str (padded.map fun col => col.getD i []),
     rows0.map fun r => if r.isEmpty then r else padTo mh r)

theorem visibleLen_joinWith (sep : Line) (ls : List Line) :
    visibleLen (joinWith sep ls) =
      (ls.map visibleLen).sum + visibleLen sep * (ls.length - 1) := by
  induction ls with
  | nil => simp [joinWith, visibleLen]
  | cons x t ih =>
      cases t with
      | nil => simp [joinWith, visibleLen]
      | cons y u =>
          simp only [joinWith, visibleLen_append, ih, List.map_cons,
            List.sum_cons, List.length_cons, Nat.add_sub_cancel]
          ring

theorem le_maxHeight_of_foldl (rows : List (List Line)) :
    ∀ a : Nat, a ≤ rows.foldl (fun x r => max x r.length) a := by
  induction rows with
  | nil => intro a; simp
  | cons r t ih =>
      intro a
      calc a ≤ max a r.length := le_max_left _ _
        _ ≤ t.foldl (fun x r => max x r.length) (max a r.length) := ih _
        _ = (r :: t).foldl (fun x r => max x r.length) a := rfl

theorem foldl_max_mono (rows : List (List Line)) :
    ∀ a b : Nat, a ≤ b →
      rows.foldl (fun x r => max x r.length) a ≤
        rows.foldl (fun x r => max x r.length) b := by
  induction rows with
  | nil => intro a b h; simpa using h
  | cons r t ih =>
      intro a b h
      exact ih _ _ (max_le_max h le_rfl)

theorem length_le_maxHeight {r : List Line} {rows : List (List Line)}
    (h : r ∈ rows) : r.length ≤ maxHeight rows := by
  unfold maxHeight
  induction rows with
  | nil => cases h
  | cons s t ih =>
      rcases List.mem_cons.mp h with rfl | h'
      · calc r.length ≤ max 0 r.length := le_max_right _ _
          _ ≤ t.foldl (fun x r => max x r.length) (max 0 r.length) :=
              le_maxHeight_of_foldl _ _
          _ = (r :: t).foldl (fun x r => max x r.length) 0 := rfl
      · calc r.length ≤ t.foldl (fun x r => max x r.length) 0 := ih h'
          _ ≤ t.foldl (fun x r => max x r.length) (max 0 s.length) :=
              foldl_max_mono _ _ _ (Nat.zero_le _)
          _ = (s :: t).foldl (fun x r => max x r.length) 0 := rfl

theorem length_padTo {r : List Line} {mh : Nat} (h : r.length ≤ mh) :
    (padTo mh r).length = mh := by
  simp [padTo]
  omega

theorem visibleLen_of_mem_padTo {r : List Line} {mh : Nat} {l : Line}
    (hl : l ∈ padTo mh r)
    (hw : ∀ x ∈ r, visibleLen x = visibleLen (r.headD [])) :
    visibleLen l = visibleLen (r.headD []) := by
  rcases List.mem_append.mp hl with h | h
  · exact hw l h
  · rw [List.eq_of_mem_replicate h]
    exact visibleLen_replicate_ch _ _

/-- C7: combining non-empty panels with per-panel uniform visible
widths yields exactly `max` panel-height lines, each of visible length
the sum of the panel widths plus `gap` spaces between each adjacent
pair. -/
theorem combine_rows_shape (rows0 : List (List Line)) (gap : Nat)
    (h0 : rows0 ≠ [])
    (h1 : ∀ r ∈ rows0, r ≠ [])
    (h2 : ∀ r ∈ rows0, ∀ l ∈ r, visibleLen l = visibleLen (r.headD [])) :
    (combine_rows rows0 gap).1.length = maxHeight rows0 ∧
    ∀ l ∈ (combine_rows rows0 gap).1,
      visibleLen l =
        (rows0.map fun r => visibleLen (r.headD [])).sum +
          gap * (rows0.length - 1) := by
  have hfilter : rows0.filter (fun r => !r.isEmpty) = rows0 := by
    rw [List.filter_eq_self]
    intro r hr
    simpa [List.isEmpty_iff] using h1 r hr
  have hne : (rows0.filter (fun r => !r.isEmpty)).isEmpty = false := by
    rw [hfilter]
    cases rows0 with
    | nil => exact absurd rfl h0
    | cons a t => rfl
  unfold combine_rows
  rw [hfilter] at hne ⊢
  simp only [hne, Bool.false_eq_true, if_false, List.length_map,
    List.length_range]
  refine ⟨trivial, ?_⟩
  intro l hl
  rcases List.mem_map.mp hl with ⟨i, hi, rfl⟩
  have hi' : i < maxHeight rows0 := List.mem_range.mp hi
  rw [visibleLen_joinWith]
  have hparts :
      ((rows0.map (padTo (maxHeight rows0))).map fun col => col.getD i []).map
          visibleLen =
        rows0.map fun r => visibleLen (r.headD []) := by
    rw [List.map_map, List.map_map]
    refine List.map_congr_left ?_
    intro r hr
    simp only [Function.comp]
    have hlen : (padTo (maxHeight rows0) r).length = maxHeight rows0 :=
      length_padTo (length_le_maxHeight hr)
    have hi'' : i < (padTo (maxHeight rows0) r).length := by omega
    have hget : (padTo (maxHeight rows0) r).getD i [] =
        (padTo (maxHeight rows0) r).get ⟨i, hi''⟩ := by
      rw [List.getD_eq_getElem?_getD, List.getElem?_eq_getElem hi'']
      rfl
    rw [hget]
    exact visibleLen_of_mem_padTo
      (List.get_mem (padTo (maxHeight rows0) r) i hi'') (h2 r hr)
  rw [hparts, visibleLen_replicate_ch]
  congr 1
  simp

/-- Witness for C7 at the spec's example: a 3-line panel of visible
width 10 and a 5-line panel of visible width 12 with the default gap 2
combine to 5 lines of visible length 24. -/
theorem combine_rows_shape_witness :
    (combine_rows
        [List.replicate 3 (List.replicate 10 (Tok.ch 'a')),
         List.replicate 5 (List.replicate 12 (Tok.ch 'b'))] 2).1.length = 5 ∧
    ∀ l ∈ (combine_rows
        [List.replicate 3 (List.replicate 10 (Tok.ch 'a')),
         List.replicate 5 (List.replicate 12 (Tok.ch 'b'))] 2).1,
      visibleLen l = 24 := by
  have h := combine_rows_shape
    [List.replicate 3 (List.replicate 10 (Tok.ch 'a')),
     List.replicate 5 (List.replicate 12 (Tok.ch 'b'))] 2
    (by decide) (by decide) (by decide)
  refine ⟨?_, ?_⟩
  · rw [h.1]; decide
  · intro l hl
    have := h.2 l hl
    rw [this]
    decide

/-! ### Graph rasterizer (`wellz/ui/widgets/graph.py`)

`int(x)` on a nonnegative Python float truncates toward zero; values
here are rationals, so it is the floor of a nonnegative rational (the
toward-zero case for negatives is kept for faithfulness). -/

def pyInt (q : ℚ) : ℤ :=
  if q < 0 then -(⌊-q⌋) else ⌊q⌋

/-- `max(min_val, min(max_val, value))`. -/
def clampQ (lo hi v : ℚ) : ℚ :=
  max lo (min hi v)

/-- `value_range = max_val - min_val if max_val != min_val else 1`. -/
def valueRange (mn mx : ℚ) : ℚ :=
  if mx ≠ mn then mx - mn else 1

/-- `int((clamp(v) - min_val) / value_range * levels)`: the normalized
fill height in sub-levels, shared by all three renderers. -/
def normHeight (mn mx : ℚ) (levels : Nat) (v : ℚ) : Nat :=
  (pyInt ((clampQ mn mx v - mn) / valueRange mn mx * levels)).toNat

def BRAILLE_BASE : Nat := 0x2800

def BRAILLE_DOTS : List (List Nat) :=
  [[0x01, 0x08], [0x02, 0x10], [0x04, 0x20], [0x40, 0x80]]

def BLOCK_CHARS : List Char :=
  [' ', '▁', '▂', '▃', '▄', '▅', '▆', '▇', '█']

def ASCII_CHARS : List Char :=
  [' ', '.', '_', '-', '=', '+', '#', '@']

/-- The width-fit step shared verbatim by the three `render` methods:
empty data becomes `[0]`, then truncate to the last `n` samples or
left-pad with zeros. -/
def graphFit (data : List ℚ) (n : Nat) : List ℚ :=
  let d := if data.isEmpty then [0] else data
  if n < d.length then pyLastSlice d n
  else if d.length < n then List.replicate (n - d.length) 0 ++ d
  else d

/-- `dots[j][x]` of the braille dot matrix after the bottom-up fill
(`j` counted from the top): set iff the column's fill height reaches
past row `j`. -/
def brailleDot (dotsHeight : Nat) (mn mx : ℚ) (data : List ℚ)
    (x j : Nat) : Bool :=
  decide (x < data.length) &&
    decide (dotsHeight - min (normHeight mn mx dotsHeight (data.getD x 0)) dotsHeight ≤ j)

/-- The 2×4 dot block of one character cell, OR-ed into a braille
offset (`char_val`); `dot_x = col*2 + dx`, `dot_y = row*4 + dy` are
inlined. -/
def brailleCellVal (dotsWidth dotsHeight : Nat) (mn mx : ℚ)
    (data : List ℚ) (row col : Nat) : Nat :=
  (List.range 4).foldl (fun acc dy =>
    (List.range 2).foldl (fun acc dx =>
      if col * 2 + dx < dotsWidth ∧ row * 4 + dy < dotsHeight ∧
          brailleDot dotsHeight mn mx data (col * 2 + dx) (row * 4 + dy) = true then
        acc ||| (BRAILLE_DOTS.getD dy []).getD dx 0
      else acc) acc) 0

/-- `f"{color}{char}{RESET}" if color else char` (an empty Python color
string is falsy, modelled as `none`). -/
def colorWrap (color : Option String) (c : Char) : Line :=
  match color with
  | some col => [Tok.esc col, Tok.ch c, Tok.esc RESET]
  | none => [Tok.ch c]

namespace BrailleGraph

/-- `BrailleGraph.render` (graph.py lines 66-131). -/
def render (data : List ℚ) (width height : Nat) (mn mx : ℚ)
    (color empty_color : Option String) : List Line :=
  let dotsWidth := width * 2
  let dotsHeight := height * 4
  let d := graphFit data dotsWidth
  (List.range height).map fun row =>
    (List.range width).flatMap fun col =>
      let v := brailleCellVal dotsWidth dotsHeight mn mx d row col
      let braille_char := Char.ofNat (BRAILLE_BASE + v)
      if 0 < v then colorWrap color braille_char
      else colorWrap empty_color braille_char

end BrailleGraph

namespace BlockGraph

/-- `BlockGraph.render` (graph.py lines 215-268). -/
def render (data : List ℚ) (width height : Nat) (mn mx : ℚ)
    (color empty_color : Option String) : List Line :=
  let d := graphFit data width
  let levels := height * 8
  let columns := d.map (normHeight mn mx levels)
  (List.range height).map fun row =>
    columns.flatMap fun col_height =>
      let row_bottom := (height - 1 - row) * 8
      let row_top := row_bottom + 8
      let c : Char :=
        if row_top ≤ col_height then BLOCK_CHARS.getD 8 ' '
        else if col_height ≤ row_bottom then BLOCK_CHARS.getD 0 ' '
        else BLOCK_CHARS.getD (col_height - row_bottom) ' '
      if c ≠ ' ' then colorWrap color c else colorWrap empty_color c

end BlockGraph

namespace AsciiGraph

/-- `AsciiGraph.render` (graph.py lines 277-328). -/
def render (data : List ℚ) (width height : Nat) (mn mx : ℚ)
    (color empty_color : Option String) : List Line :=
  let d := graphFit data width
  let levels_per_char := ASCII_CHARS.length - 1
  let levels := height * levels_per_char
  let columns := d.map (normHeight mn mx levels)
  (List.range height).map fun row =>
    columns.flatMap fun col_height =>
      let row_bottom := (height - 1 - row) * levels_per_char
      let row_top := row_bottom + levels_per_char
      let c : Char :=
        if row_top ≤ col_height then ASCII_CHARS.getD (ASCII_CHARS.length - 1) ' '
        else if col_height ≤ row_bottom then ASCII_CHARS.getD 0 ' '
        else ASCII_CHARS.getD (min (col_height - row_bottom) (ASCII_CHARS.length - 1)) ' '
      if c ≠ ' ' then colorWrap color c else colorWrap empty_color c

end AsciiGraph

/-- The three renderer variants selected by `create_graph`. -/
inductive GraphStyle where
  | braille | block | ascii
  deriving DecidableEq, Repr

def renderGraph (style : GraphStyle) (data : List ℚ) (width height : Nat)
    (mn mx : ℚ) (color empty_color : Option String) : List Line :=
  match style with
  | .braille => BrailleGraph.render data width height mn mx color empty_color
  | .block => BlockGraph.render data width height mn mx color empty_color
  | .ascii => AsciiGraph.render data width height mn mx color empty_color

/-- The glyph a renderer emits for a cell with no data in it. -/
def emptyGlyph : GraphStyle → Char
  | .braille => Char.ofNat BRAILLE_BASE
  | .block => ' '
  | .ascii => ' '

/-! ### Shape lemmas for the rasterizer -/

theorem visibleLen_colorWrap (c : Option String) (g : Char) :
    visibleLen (colorWrap c g) = 1 := by
  cases c <;> rfl

theorem visibleLen_ite_colorWrap (P : Prop) [Decidable P]
    (c1 c2 : Option String) (g1 g2 : Char) :
    visibleLen (if P then colorWrap c1 g1 else colorWrap c2 g2) = 1 := by
  split <;> exact visibleLen_colorWrap _ _

theorem visibleLen_flatMap_one (l : List α) (f : α → Line)
    (h : ∀ a ∈ l, visibleLen (f a) = 1) :
    visibleLen (l.flatMap f) = l.length := by
  induction l with
  | nil => rfl
  | cons a t ih =>
      rw [List.flatMap_cons, visibleLen_append, h a (List.mem_cons_self a t),
        ih fun b hb => h b (List.mem_cons_of_mem a hb), List.length_cons]
      omega

theorem flatMap_all_singleton (l : List α) (f : α → Line) (t : Tok)
    (n : Nat) (hlen : l.length = n) (h : ∀ a ∈ l, f a = [t]) :
    l.flatMap f = List.replicate n t := by
  subst hlen
  induction l with
  | nil => rfl
  | cons a s ih =>
      rw [List.flatMap_cons, h a (List.mem_cons_self a s),
        ih fun b hb => h b (List.mem_cons_of_mem a hb)]
      rfl

theorem map_all_const (l : List α) (f : α → β) (b : β)
    (n : Nat) (hlen : l.length = n) (h : ∀ a ∈ l, f a = b) :
    l.map f = List.replicate n b := by
  subst hlen
  induction l with
  | nil => rfl
  | cons a s ih =>
      rw [List.map_cons, h a (List.mem_cons_self a s),
        ih fun x hx => h x (List.mem_cons_of_mem a hx)]
      rfl

theorem foldl_congr_id {l : List α} {f : β → α → β}
    (h : ∀ b, ∀ a ∈ l, f b a = b) : ∀ b, l.foldl f b = b := by
  induction l with
  | nil => intro b; rfl
  | cons a t ih =>
      intro b
      rw [List.foldl_cons, h b a (List.mem_cons_self a t)]
      exact ih (fun c x hx => h c x (List.mem_cons_of_mem a hx)) b

theorem length_pyLastSlice_of_le (l : List α) (n : Nat) (h1 : 1 ≤ n)
    (h2 : n ≤ l.length) : (pyLastSlice l n).length = n := by
  unfold pyLastSlice
  have : n ≠ 0 := by omega
  simp [this]
  omega

theorem length_graphFit (data : List ℚ) (n : Nat) (hn : 1 ≤ n) :
    (graphFit data n).length = n := by
  unfold graphFit
  by_cases hlt : n < (if data.isEmpty then [(0:ℚ)] else data).length
  · simp only [hlt, if_true]
    exact length_pyLastSlice_of_le _ _ hn (le_of_lt hlt)
  · simp only [hlt, if_false]
    by_cases hgt : (if data.isEmpty then [(0:ℚ)] else data).length < n
    · simp only [hgt, if_true, List.length_append, List.length_replicate]
      omega
    · simp only [hgt, if_false]
      omega

theorem getD_replicate_self (n x : Nat) (c : α) :
    (List.replicate n c).getD x c = c := by
  rw [List.getD_eq_getElem?_getD]
  rcases lt_or_ge x n with h | h
  · rw [List.getElem?_eq_getElem (by simpa using h)]
    simp
  · rw [List.getElem?_eq_none (by simpa using h)]
    rfl

theorem graphFit_zeros (k n : Nat) (hn : 1 ≤ n) :
    graphFit (List.replicate k 0) n = List.replicate n 0 := by
  have hd : (if (List.replicate k (0:ℚ)).isEmpty then [(0:ℚ)]
      else List.replicate k 0) = List.replicate (max k 1) 0 := by
    cases k with
    | zero => simp
    | succ m =>
        have : max (m + 1) 1 = m + 1 := by omega
        simp [this]
  unfold graphFit
  rw [hd]
  simp only [List.length_replicate]
  by_cases hlt : n < max k 1
  · have hne : n ≠ 0 := by omega
    simp only [hlt, if_true, pyLastSlice, hne, if_false, List.length_replicate,
      List.drop_replicate]
    congr 1
    omega
  · simp only [hlt, if_false]
    by_cases hgt : max k 1 < n
    · simp only [hgt, if_true, ← List.replicate_add]
      congr 1
      omega
    · simp only [hgt, if_false]
      congr 1
      omega

theorem normHeight_zero (levels : Nat) : normHeight 0 100 levels 0 = 0 := by
  norm_num [normHeight, clampQ, valueRange, pyInt]

theorem brailleCellVal_zeros (dW dH row col : Nat) :
    brailleCellVal dW dH 0 100 (List.replicate dW 0) row col = 0 := by
  unfold brailleCellVal
  refine foldl_congr_id ?_ 0
  intro acc dy hdy
  refine foldl_congr_id ?_ acc
  intro acc' dx hdx
  have hcond : ¬ (col * 2 + dx < dW ∧ row * 4 + dy < dH ∧
      brailleDot dH 0 100 (List.replicate dW 0) (col * 2 + dx) (row * 4 + dy)
        = true) := by
    rintro ⟨h1, h2, h3⟩
    unfold brailleDot at h3
    rw [getD_replicate_self, normHeight_zero] at h3
    simp at h3
    omega
  simp [hcond]

/-- C5: for every renderer style, input series, width ≥ 1 and
height ≥ 1, `render` (a total function: no exceptions) returns exactly
`height` lines each of visible width exactly `width`; an all-zero (in
particular empty, via `k = 0`) input renders a fully empty graph. -/
theorem graph_render_shape (style : GraphStyle) (data : List ℚ)
    (width height : Nat) (mn mx : ℚ) (color empty_color : Option String)
    (hw : 1 ≤ width) (_hh : 1 ≤ height) :
    (renderGraph style data width height mn mx color empty_color).length
      = height ∧
    (∀ l ∈ renderGraph style data width height mn mx color empty_color,
      visibleLen l = width) ∧
    ∀ k : Nat,
      renderGraph style (List.replicate k 0) width height 0 100 none none =
        List.replicate height (List.replicate width (Tok.ch (emptyGlyph style))) := by
  cases style with
  | braille =>
      refine ⟨by simp [renderGraph, BrailleGraph.render], ?_, ?_⟩
      · intro l hl
        simp only [renderGraph, BrailleGraph.render, List.mem_map] at hl
        obtain ⟨row, hrow, rfl⟩ := hl
        rw [visibleLen_flatMap_one]
        · simp
        · intro col hcol
          exact visibleLen_ite_colorWrap _ _ _ _ _
      · intro k
        simp only [renderGraph, BrailleGraph.render]
        rw [graphFit_zeros k (width * 2) (by omega)]
        refine map_all_const _ _ _ height (List.length_range height) ?_
        intro row hrow
        refine flatMap_all_singleton _ _ _ width (List.length_range width) ?_
        intro col hcol
        dsimp only
        rw [brailleCellVal_zeros]
        simp [colorWrap, emptyGlyph]
  | block =>
      refine ⟨by simp [renderGraph, BlockGraph.render], ?_, ?_⟩
      · intro l hl
        simp only [renderGraph, BlockGraph.render, List.mem_map] at hl
        obtain ⟨row, hrow, rfl⟩ := hl
        rw [visibleLen_flatMap_one]
        · rw [List.length_map, length_graphFit _ _ hw]
        · intro ch hch
          exact visibleLen_ite_colorWrap _ _ _ _ _
      · intro k
        simp only [renderGraph, BlockGraph.render]
        rw [graphFit_zeros k width hw]
        refine map_all_const _ _ _ height (List.length_range height) ?_
        intro row hrow
        have hcols : (List.replicate width (0:ℚ)).map
            (normHeight 0 100 (height * 8)) = List.replicate width 0 := by
          refine map_all_const _ _ _ width (List.length_replicate _ _) ?_
          intro a ha
          rw [List.eq_of_mem_replicate ha, normHeight_zero]
        rw [hcols]
        refine flatMap_all_singleton _ _ _ width (List.length_replicate _ _) ?_
        intro ch hch
        rw [List.eq_of_mem_replicate hch]
        have h1 : ¬ ((height - 1 - row) * 8 + 8 ≤ 0) := by omega
        have h2 : 0 ≤ (height - 1 - row) * 8 := Nat.zero_le _
        simp [h1, h2, BLOCK_CHARS, colorWrap, emptyGlyph]
  | ascii =>
      refine ⟨by simp [renderGraph, AsciiGraph.render], ?_, ?_⟩
      · intro l hl
        simp only [renderGraph, AsciiGraph.render, List.mem_map] at hl
        obtain ⟨row, hrow, rfl⟩ := hl
        rw [visibleLen_flatMap_one]
        · rw [List.length_map, length_graphFit _ _ hw]
        · intro ch hch
          exact visibleLen_ite_colorWrap _ _ _ _ _
      · intro k
        simp only [renderGraph, AsciiGraph.render]
        rw [graphFit_zeros k width hw]
        refine map_all_const _ _ _ height (List.length_range height) ?_
        intro row hrow
        have hcols : (List.replicate width (0:ℚ)).map
            (normHeight 0 100 (height * (ASCII_CHARS.length - 1))) =
              List.replicate width 0 := by
          refine map_all_const _ _ _ width (List.length_replicate _ _) ?_
          intro a ha
          rw [List.eq_of_mem_replicate ha, normHeight_zero]
        rw [hcols]
        refine flatMap_all_singleton _ _ _ width (List.length_replicate _ _) ?_
        intro ch hch
        rw [List.eq_of_mem_replicate hch]
        have hlen8 : ASCII_CHARS.length = 8 := rfl
        have h1 : ¬ ((height - 1 - row) * (ASCII_CHARS.length - 1) +
            (ASCII_CHARS.length - 1) ≤ 0) := by
          rw [hlen8]; omega
        have h2 : 0 ≤ (height - 1 - row) * (ASCII_CHARS.length - 1) :=
          Nat.zero_le _
        simp [h1, h2, ASCII_CHARS, colorWrap, emptyGlyph]

/-! ### `BrailleGraph.render_dual` (graph.py lines 133-206)

The fitting step uses slice assignment `data[:] = ...`, which rewrites
the caller's list objects in place (and has no empty-list guard); the
function is therefore modelled as returning the rendered lines together
with the post-call state of both argument lists.  In the cell loop,
`dx == 0` consults only series 1 and `dx == 1` only series 2; the color
parameters are applied unconditionally via f-strings whenever the
matching series is present. -/

def dualFit (data : List ℚ) (n : Nat) : List ℚ :=
  if n < data.length then pyLastSlice data n
  else if data.length < n then List.replicate (n - data.length) 0 ++ data
  else data

/-- `(char_val, has_series1, has_series2)` of one cell of the dual
graph. -/
def dualCellVal (dotsWidth dotsHeight : Nat) (mn mx : ℚ)
    (d1 d2 : List ℚ) (row col : Nat) : Nat × Bool × Bool :=
  (List.range 4).foldl (fun acc dy =>
    (List.range 2).foldl (fun acc dx =>
      if col * 2 + dx < dotsWidth ∧ row * 4 + dy < dotsHeight then
        if dx = 0 ∧ brailleDot dotsHeight mn mx (d1.take dotsWidth)
            (col * 2 + dx) (row * 4 + dy) = true then
          (acc.1 ||| (BRAILLE_DOTS.getD dy []).getD dx 0, true, acc.2.2)
        else if dx = 1 ∧ brailleDot dotsHeight mn mx (d2.take dotsWidth)
            (col * 2 + dx) (row * 4 + dy) = true then
          (acc.1 ||| (BRAILLE_DOTS.getD dy []).getD dx 0, acc.2.1, true)
        else acc
      else acc) acc) (0, false, false)

def render_dual (data1 data2 : List ℚ) (width height : Nat) (mn mx : ℚ)
    (color1 color2 : String) : List Line × (List ℚ × List ℚ) :=
  let dotsWidth := width * 2
  let dotsHeight := height * 4
  let d1 := dualFit data1 dotsWidth
  let d2 := dualFit data2 dotsWidth
  let lines := (List.range height).map fun row =>
    (List.range width).flatMap fun col =>
      let cell := dualCellVal dotsWidth dotsHeight mn mx d1 d2 row col
      let braille_char := Char.ofNat (BRAILLE_BASE + cell.1)
      if cell.2.1 = true ∧ cell.2.2 = true then
        [Tok.esc color1, Tok.ch braille_char, Tok.esc RESET]
      else if cell.2.1 = true then
        [Tok.esc color1, Tok.ch braille_char, Tok.esc RESET]
      else if cell.2.2 = true then
        [Tok.esc color2, Tok.ch braille_char, Tok.esc RESET]
      else [Tok.ch braille_char]
  (lines, (d1, d2))

/-- C10: the composition and dual-series rendering mutate their
sequence arguments — `combine_rows` appends blank padding lines to each
shorter caller list (post-state shown for a 1-line and a 2-line panel),
and `render_dual` overwrites both input series in place with their
width-fitted versions (`data[:] = ...`); in both cases the caller's
lists differ after the call. -/
theorem argument_mutation :
    ((∀ d1 d2 : List ℚ, ∀ w h : Nat, ∀ mn mx : ℚ, ∀ c1 c2 : String,
        (render_dual d1 d2 w h mn mx c1 c2).2 =
          (dualFit d1 (w * 2), dualFit d2 (w * 2)))) ∧
    (combine_rows [[[Tok.ch 'a']], [[Tok.ch 'b'], [Tok.ch 'b']]] 2).2 =
      [[[Tok.ch 'a'], [Tok.ch ' ']], [[Tok.ch 'b'], [Tok.ch 'b']]] ∧
    (combine_rows [[[Tok.ch 'a']], [[Tok.ch 'b'], [Tok.ch 'b']]] 2).2 ≠
      [[[Tok.ch 'a']], [[Tok.ch 'b'], [Tok.ch 'b']]] ∧
    (render_dual [5] [3] 2 1 0 100 "c1" "c2").2 = ([0, 0, 0, 5], [0, 0, 0, 3]) ∧
    (render_dual [5] [3] 2 1 0 100 "c1" "c2").2 ≠ ([5], [3]) := by
  refine ⟨fun d1 d2 w h mn mx c1 c2 => rfl, ?_, ?_, ?_, ?_⟩ <;> decide

/-- Witness for C5 at style braille, empty input, width 2, height 1. -/
theorem graph_render_shape_witness :
    (renderGraph .braille [] 2 1 0 100 none none).length = 1 ∧
    renderGraph .braille [] 2 1 0 100 none none =
      List.replicate 1 (List.replicate 2 (Tok.ch (Char.ofNat 0x2800))) := by
  have h := graph_render_shape .braille [] 2 1 0 100 none none
    (by decide) (by decide)
  refine ⟨h.1, ?_⟩
  have h3 := h.2.2 0
  simpa [emptyGlyph, BRAILLE_BASE] using h3

/-! ### Process manager (`wellz/process/manager.py`)

A process snapshot entry keeps the fields the sorting and tree code
reads.  `list.sort(key=..., reverse=...)` is Python's stable sort,
modelled as a stable insertion sort (`pySort`): an element is inserted
after every earlier element that should stay before it, so equal keys
keep their original relative order, exactly as CPython guarantees. -/

structure Proc where
  pid : Nat
  ppid : Nat
  name : String
  username : String
  cpu_percent : ℚ
  memory_percent : ℚ
  deriving DecidableEq, Repr

/-- The four valid `sort_by` strings (`sort_keys.get` falls back to
`"cpu"` for anything else). -/
inductive SortBy where
  | cpu | memory | pid | name
  deriving DecidableEq, Repr

def cmpLe (sort_by : SortBy) (a b : Proc) : Bool :=
  match sort_by with
  | .cpu => decide (a.cpu_percent ≤ b.cpu_percent)
  | .memory => decide (a.memory_percent ≤ b.memory_percent)
  | .pid => decide (a.pid ≤ b.pid)
  | .name => decide (a.name.toLower ≤ b.name.toLower)

def insertKeep (keep : α → α → Bool) (x : α) : List α → List α
  | [] => [x]
  | y :: ys => if keep y x then y :: insertKeep keep x ys else x :: y :: ys

/-- Stable sort: `keep y x` means an earlier `y` stays in front of the
newly inserted `x`. -/
def pySort (keep : α → α → Bool) (l : List α) : List α :=
  l.foldl (fun acc x => insertKeep keep x acc) []

/-- `get_processes` sorting step (manager.py lines 62-76):
`reverse = descending if sort_by in ["cpu", "memory"] else not
descending`, then a stable sort by the key. -/
def sortProcesses (processes : List Proc) (sort_by : SortBy)
    (descending : Bool) : List Proc :=
  let reverse :=
    match sort_by with
    | .cpu | .memory => descending
    | .pid | .name => !descending
  pySort (fun y x => if reverse then cmpLe sort_by x y else cmpLe sort_by y x)
    processes

/-- `build_tree` (manager.py lines 78-102) keyed at one parent:
`tree[ppid]` lists child pids in iteration order of `processes`. -/
def childrenOf (processes : List Proc) (p : Nat) : List Nat :=
  (processes.filter fun q => q.ppid == p).map Proc.pid

/-- `pid_map = {p['pid']: p for p in processes}`: a Python dict
comprehension keeps the last entry for a duplicated key, hence the
`reverse`. -/
def pidLookup (processes : List Proc) (p : Nat) : Option Proc :=
  processes.reverse.find? fun q => q.pid == p

/-- `pid_map.get(p, {}).get('cpu_percent', 0)`. -/
def cpuOf (processes : List Proc) (p : Nat) : ℚ :=
  match pidLookup processes p with
  | some q => q.cpu_percent
  | none => 0

/-- The root set of `get_tree_processes` (manager.py lines 141-148):
processes whose `ppid` is absent from the snapshot's pid set or is 0.
`root_pids` is a Python `set`, kept here as a deduplicated list in
snapshot order (CPython set iteration order is unspecified; the
theorems below only evaluate it where the subsequent cpu sort has
distinct keys, making the order immaterial). -/
def rootPids (processes : List Proc) : List Nat :=
  ((processes.filter fun p =>
      !(processes.map Proc.pid).contains p.ppid || p.ppid == 0).map
    Proc.pid).dedup

/-- `sorted(root_pids, key=cpu, reverse=True)` (manager.py 151-153). -/
def sortedRoots (processes : List Proc) : List Nat :=
  pySort (fun y x => decide (cpuOf processes x ≤ cpuOf processes y))
    (rootPids processes)

/-- `add_subtree` (manager.py lines 126-138), with explicit
`(visited, result)` state and a fuel bound on the recursion depth; the
Python recursion pushes each non-returning frame's pid into `visited`
first, so its depth is at most the number of distinct pids and any
`fuel ≥ processes.length + 1` is enough. -/
def addSubtree (children : Nat → List Nat) (pm : Nat → Option Proc)
    (limit : Nat) :
    Nat → Nat → Nat → List Nat × List (Proc × Nat) →
      List Nat × List (Proc × Nat)
  | 0, _, _, st => st
  | fuel + 1, pid, depth, (visited, result) =>
      if pid ∈ visited ∨ limit ≤ result.length then (visited, result)
      else
        let visited := pid :: visited
        let result :=
          match pm pid with
          | some p => result ++ [(p, depth)]
          | none => result
        (children pid).foldl
          (fun st c => addSubtree children pm limit fuel c (depth + 1) st)
          (visited, result)

/-- `get_tree_processes` (manager.py lines 104-158) applied to a given
snapshot: sort by the active key (descending, limit 500), build the
tree, DFS from the cpu-sorted roots, return `result[:limit]` as
`(process, tree_depth)` pairs. -/
def get_tree_processes (snapshot : List Proc) (sort_by : SortBy)
    (limit : Nat) : List (Proc × Nat) :=
  let processes := (sortProcesses snapshot sort_by true).take 500
  let st := (sortedRoots processes).foldl
    (fun st pid =>
      addSubtree (childrenOf processes) (pidLookup processes) limit
        (processes.length + 1) pid 0 st)
    ([], [])
  st.2.take limit

/-- The claim's root rule, stated from the spec's words for comparison
with the source's `rootPids`: parent absent from the snapshot or the
parent is PID 0 or PID 1. -/
def claimRootPids (processes : List Proc) : List Nat :=
  ((processes.filter fun p =>
      !(processes.map Proc.pid).contains p.ppid || p.ppid == 0 ||
        p.ppid == 1).map Proc.pid).dedup

/-- C8 counterexample: in the snapshot `[{pid:1,ppid:0},{pid:2,ppid:1}]`
(PID 1 present) the code's roots are `{1}` only — a process whose
parent is PID 1 is *not* a root when PID 1 is in the snapshot, while
the claim's rule ("absent or PID 0/1") would also make PID 2 a root. -/
theorem tree_roots_counterexample :
    rootPids [⟨1, 0, "init", "root", 0, 0⟩, ⟨2, 1, "sh", "root", 0, 0⟩]
      = [1] ∧
    claimRootPids [⟨1, 0, "init", "root", 0, 0⟩, ⟨2, 1, "sh", "root", 0, 0⟩]
      = [1, 2] ∧
    rootPids [⟨1, 0, "init", "root", 0, 0⟩, ⟨2, 1, "sh", "root", 0, 0⟩] ≠
      claimRootPids [⟨1, 0, "init", "root", 0, 0⟩, ⟨2, 1, "sh", "root", 0, 0⟩] := by
  refine ⟨?_, ?_, ?_⟩ <;> decide

/-- C8 (amended): the roots are exactly the processes whose parent pid
is absent from the snapshot or is PID 0 (children of a present PID 1
are not roots); on the spec's snapshot, with the cpu sort key and
distinct cpu values putting PID 1 first among roots, the DFS order is
1, then 1's children 2 and 3 in sort-key order, then 4, with the
claimed depths, and the roots are exactly {1, 4}. -/
theorem tree_order_spec :
    (∀ processes : List Proc, ∀ p : Nat,
      p ∈ rootPids processes ↔
        ∃ q ∈ processes, q.pid = p ∧
          (q.ppid ∉ processes.map Proc.pid ∨ q.ppid = 0)) ∧
    (get_tree_processes
        [⟨1, 0, "a", "u", 10, 0⟩, ⟨2, 1, "b", "u", 3, 0⟩,
         ⟨3, 1, "c", "u", 2, 0⟩, ⟨4, 99, "d", "u", 5, 0⟩] .cpu 50).map
      (fun x => (x.1.pid, x.2)) = [(1, 0), (2, 1), (3, 1), (4, 0)] ∧
    rootPids ((sortProcesses
        [⟨1, 0, "a", "u", 10, 0⟩, ⟨2, 1, "b", "u", 3, 0⟩,
         ⟨3, 1, "c", "u", 2, 0⟩, ⟨4, 99, "d", "u", 5, 0⟩] .cpu true).take 500)
      = [1, 4] ∧
    childrenOf ((sortProcesses
        [⟨1, 0, "a", "u", 10, 0⟩, ⟨2, 1, "b", "u", 3, 0⟩,
         ⟨3, 1, "c", "u", 2, 0⟩, ⟨4, 99, "d", "u", 5, 0⟩] .cpu true).take 500)
      1 = [2, 3] := by
  refine ⟨?_, by decide, by decide, by decide⟩
  intro processes p
  simp [rootPids, List.mem_dedup, List.mem_map, List.mem_filter,
    List.elem_eq_mem]
  aesop

end Wellz
